import Mathlib

/-!
Verification development for the Air Quality and Pollution Tracking Portal
(src/main.py): a menu-driven CRUD tool over flat JSON collections with
report generation (grouping and averaging of AQI records).

The embedding models the data as Lean structures, Python dicts as
insertion-ordered association lists, Python floats as exact rationals
(plus infinity and NaN markers), and the fallible integer coercion in
the Except monad. Each operation of the program is a pure function from
the loaded collection and the console inputs to the new collection, a
saved-or-not flag and the list of printed messages.
-/

/-- Model of a Python float value: a finite rational, an infinity or NaN.
Decimal-to-binary error is idealised away: finite values are exact. -/
inductive PyFloat where
  | finite (q : ℚ)
  | inf
  | negInf
  | nan
deriving DecidableEq, Repr

deriving instance DecidableEq for Except

/-- Whitespace stripped by the Python `str.strip` (ASCII part). -/
def isPySpace (c : Char) : Bool :=
  c = ' ' ∨ c = '\t' ∨ c = '\n' ∨ c = '\r' ∨ c = '\x0b' ∨ c = '\x0c'

/-- The Python `str.strip()` on a character list. -/
def trimChars (cs : List Char) : List Char :=
  ((cs.dropWhile isPySpace).reverse.dropWhile isPySpace).reverse

/-- The Python `str.lower()` (ASCII part, which is all the program needs). -/
def pyLower (s : String) : String :=
  String.mk (s.data.map Char.toLower)

/-- Numeric value of a digit list, most significant first. -/
def digitsVal (cs : List Char) : Nat :=
  cs.foldl (fun a c => a * 10 + (c.toNat - 48)) 0

/-- Helper walking the characters with the previous one at hand: every
underscore must sit between two digits (PEP 515 numeric literals). -/
def uOkAux : Char → List Char → Bool
  | _, [] => true
  | p, c :: r =>
    if c = '_' then
      p.isDigit && (match r with | d :: _ => d.isDigit | [] => false) && uOkAux c r
    else uOkAux c r

/-- Underscore placement check for a numeric literal. -/
def underscoresOk : List Char → Bool
  | [] => true
  | c :: r => if c = '_' then false else uOkAux c r

/-- Optional leading sign: (isNegative, rest). -/
def splitSign : List Char → Bool × List Char
  | '+' :: r => (false, r)
  | '-' :: r => (true, r)
  | r => (false, r)

/-- Exponent suffix of a float literal (input already lowercased):
nothing means exponent 0, `e` followed by an optional sign and digits is
that exponent, anything else is a parse error. -/
def parseExpPart : List Char → Option Int
  | [] => some 0
  | 'e' :: r =>
    let sr := splitSign r
    let dr := sr.2.span Char.isDigit
    if dr.1.isEmpty || !dr.2.isEmpty then none
    else some (if sr.1 then -(digitsVal dr.1 : Int) else (digitsVal dr.1 : Int))
  | _ => none

/-- Value of integer digits `ip`, fraction digits `fp` and exponent `e`. -/
def decimalVal (ip fp : List Char) (e : Int) : ℚ :=
  ((digitsVal ip : ℚ) + (digitsVal fp : ℚ) / (10 : ℚ) ^ fp.length) * (10 : ℚ) ^ e

/-- Unsigned decimal float literal: digits, optional point and fraction
digits (at least one digit overall), optional exponent. -/
def parseDecimal (cs : List Char) : Option ℚ :=
  let ir := cs.span Char.isDigit
  match ir.2 with
  | '.' :: rest2 =>
    let fr := rest2.span Char.isDigit
    if ir.1.isEmpty && fr.1.isEmpty then none
    else (parseExpPart fr.2).map (fun e => decimalVal ir.1 fr.1 e)
  | _ =>
    if ir.1.isEmpty then none
    else (parseExpPart ir.2).map (fun e => decimalVal ir.1 [] e)

/-- Model of the Python builtin `float(str)`: strip whitespace, optional
sign, then `inf`, `infinity`, `nan` (case-insensitively) or a decimal
literal with optional fraction and exponent and PEP 515 underscores. -/
def parseFloat (x : String) : Option PyFloat :=
  let cs0 := (trimChars x.data).map Char.toLower
  if underscoresOk cs0 then
    let sr := splitSign (cs0.filter (fun c => c ≠ '_'))
    if sr.2 = ['i', 'n', 'f'] || sr.2 = ['i', 'n', 'f', 'i', 'n', 'i', 't', 'y'] then
      some (if sr.1 then .negInf else .inf)
    else if sr.2 = ['n', 'a', 'n'] then some .nan
    else match parseDecimal sr.2 with
      | some q => some (.finite (if sr.1 then -q else q))
      | none => none
  else none

/-- `safe_float` of src/main.py: `float(x)` with a fallback default on
any parse failure. -/
def safe_float (x : String) (default : PyFloat) : PyFloat :=
  (parseFloat x).getD default

/-- Truncation toward zero, the behaviour of the Python builtin `int` on
a finite float. -/
def ratTrunc (q : ℚ) : Int :=
  if q < 0 then -((-q).floor) else q.floor

/-- The Python builtin `int` on a float: truncation on finite values, an
OverflowError on infinities and a ValueError on NaN. -/
def pyIntOfFloat : PyFloat → Except String Int
  | .finite q => .ok (ratTrunc q)
  | .inf => .error "OverflowError"
  | .negInf => .error "OverflowError"
  | .nan => .error "ValueError"

/-- An air-quality record (collection `air`), as built by src/main.py. -/
structure AirRec where
  record_id : String
  region : String
  date : String
  AQI : Int
  pollutants : List (String × PyFloat)
  health_risk : String
deriving DecidableEq, Repr

/-- A pollutant definition (collection `pollutants`). -/
structure Pollutant where
  pollutant_id : String
  name : String
  description : String
  safe_limit : PyFloat
deriving DecidableEq, Repr

/-- An alert (collection `alerts`). -/
structure Alert where
  alert_id : String
  region : String
  AQI_level : String
  status : String
  issue_date : String
  expiry_date : String
deriving DecidableEq, Repr

/-- `find_by_id` of src/main.py: the first item whose key equals the
sought value, if any. -/
def find_by_id (l : List α) (key : α → String) (v : String) : Option α :=
  l.find? (fun x => key x = v)

/-- Assignment `m[k] = v` on a Python dict modelled as an
insertion-ordered association list: overwrite in place, else append. -/
def dictInsert (m : List (String × α)) (k : String) (v : α) : List (String × α) :=
  match m with
  | [] => [(k, v)]
  | (k2, v2) :: r => if k2 = k then (k, v) :: r else (k2, v2) :: dictInsert r k v

/-- In-place mutation of the first list element with the given key, the
effect of writing to the object `find_by_id` returned. -/
def replace_first (l : List α) (key : α → String) (k : String) (x2 : α) : List α :=
  match l with
  | [] => []
  | x :: rest => if key x = k then x2 :: rest else x :: replace_first rest key k x2

/-- The pollutant-level prompt loop of `add_air_quality_record`: for
each known pollutant, a non-blank input is parsed with `safe_float` and
assigned into the levels dict. -/
def pollutant_levels (pollutants_list : List Pollutant) (pollIn : String → String) :
    List (String × PyFloat) :=
  pollutants_list.foldl (fun acc p =>
    let v := pollIn p.name
    if v = "" then acc else dictInsert acc p.name (safe_float v (.finite 0))) []

/-- `add_air_quality_record` of src/main.py. Inputs: the loaded `air`
and `pollutants` collections, the generated id, the stripped console
inputs for region, date and AQI, the per-pollutant level inputs and
the current date. Output: the saved collection and the printed message,
or the uncaught exception text. -/
def add_air_quality_record (air : List AirRec) (pollutants_list : List Pollutant)
    (rid region dateIn aqiIn : String) (pollIn : String → String) (today : String) :
    Except String (List AirRec × String) :=
  let date := if dateIn = "" then today else dateIn
  let aqiF := if aqiIn = "" then PyFloat.finite 0 else safe_float aqiIn (.finite 0)
  match pyIntOfFloat aqiF with
  | .error e => .error e
  | .ok aqi =>
    .ok (air ++ [⟨rid, region, date, aqi, pollutant_levels pollutants_list pollIn, ""⟩],
         "Record added.")

/-- `update_delete_aq_record` of src/main.py. Inputs: the loaded
collection, the stripped record id, the action choice and the update
inputs. Output: the in-memory collection at return, whether it was
saved, and the printed messages, or the uncaught exception text. -/
def update_delete_aq_record (air : List AirRec)
    (rid action regionIn dateIn aqiIn : String) (pollIn : String → String) :
    Except String (List AirRec × Bool × List String) :=
  if air = [] then .ok (air, false, ["No air quality records available."])
  else if rid = "" then .ok (air, false, [])
  else match find_by_id air (fun r => r.record_id) rid with
  | none => .ok (air, false, ["Record not found."])
  | some r0 =>
    if action = "d" then
      .ok (air.filter (fun r => r.record_id ≠ rid), true, ["Deleted."])
    else if action = "u" then
      let region2 := if regionIn = "" then r0.region else regionIn
      let date2 := if dateIn = "" then r0.date else dateIn
      match (if aqiIn = "" then Except.ok r0.AQI
             else pyIntOfFloat (safe_float aqiIn (.finite r0.AQI))) with
      | .error e => .error e
      | .ok aqi2 =>
        let polls2 := r0.pollutants.map (fun kv =>
          let nv := pollIn kv.1
          if nv = "" then kv else (kv.1, safe_float nv (.finite 0)))
        let r2 : AirRec := ⟨r0.record_id, region2, date2, aqi2, polls2, r0.health_risk⟩
        .ok (replace_first air (fun r => r.record_id) rid r2, true, ["Updated."])
    else .ok (air, false, ["Cancelled."])

/-- One iteration of the `manage_pollutants` loop of src/main.py, for
choices 1 (add), 2 (update) and 3 (delete). Output: the in-memory
collection, whether it was saved, and the printed messages. -/
def manage_pollutants (ps : List Pollutant) (choice pid nameIn descIn slIn newId : String) :
    List Pollutant × Bool × List String :=
  if choice = "1" then
    (ps ++ [⟨newId, nameIn, descIn, safe_float slIn (.finite 0)⟩], true, ["Pollutant added."])
  else if choice = "2" then
    match find_by_id ps (fun p => p.pollutant_id) pid with
    | none => (ps, false, ["Not found."])
    | some p =>
      let p2 : Pollutant :=
        ⟨p.pollutant_id,
         if nameIn = "" then p.name else nameIn,
         if descIn = "" then p.description else descIn,
         if slIn = "" then p.safe_limit else safe_float slIn (.finite 0)⟩
      (replace_first ps (fun x => x.pollutant_id) pid p2, true, ["Updated."])
  else if choice = "3" then
    (ps.filter (fun x => x.pollutant_id ≠ pid), true, ["Deleted if existed."])
  else (ps, false, [])

/-- `manage_alerts` of src/main.py, for choices 1 (issue) and
2 (withdraw). Output: the in-memory collection, whether it was saved,
and the printed messages. On a withdraw with an unknown id the source
falls through its `if a:` test: nothing is printed and nothing saved. -/
def manage_alerts (alerts : List Alert) (choice aid regionIn levelIn expiryIn newId today : String) :
    List Alert × Bool × List String :=
  if choice = "1" then
    (alerts ++ [⟨newId, regionIn, levelIn, "active", today, expiryIn⟩], true, ["Alert issued."])
  else if choice = "2" then
    match find_by_id alerts (fun a => a.alert_id) aid with
    | none => (alerts, false, [])
    | some a =>
      (replace_first alerts (fun x => x.alert_id) aid
        ⟨a.alert_id, a.region, a.AQI_level, "withdrawn", a.issue_date, a.expiry_date⟩,
       true, ["Alert withdrawn."])
  else (alerts, false, [])

/-- Appending a value to `defaultdict(list)[k]`, the dict modelled as an
insertion-ordered association list: extend the list at the key in place,
or append a new singleton group at the end. -/
def dict_append (m : List (String × List Int)) (k : String) (v : Int) :
    List (String × List Int) :=
  match m with
  | [] => [(k, [v])]
  | (k2, vs) :: r => if k2 = k then (k2, vs ++ [v]) :: r else (k2, vs) :: dict_append r k v

/-- The grouping loop shared by both reports of `generate_reports`:
walk the records in order and append each AQI to the group of its key. -/
def group_aqi_by (key : AirRec → String) (air : List AirRec) : List (String × List Int) :=
  air.foldl (fun m r => dict_append m (key r) r.AQI) []

/-- `sum(vals)/len(vals)` on a group of AQI values, idealised as an
exact rational. -/
def ratMean (vs : List Int) : ℚ :=
  (vs.sum : ℚ) / (vs.length : ℚ)

/-- Round-half-to-even on a rational, the rounding of the Python builtin
`round` (binary floating-point representation error idealised away). -/
def roundHalfEven (q : ℚ) : Int :=
  let f := q.floor
  let frac := q - (f : ℚ)
  if frac < 1 / 2 then f
  else if 1 / 2 < frac then f + 1
  else if f % 2 = 0 then f else f + 1

/-- The Python `round(x, 1)`: round half to even at one decimal place. -/
def round1 (q : ℚ) : ℚ :=
  (roundHalfEven (q * 10) : ℚ) / 10

/-- Sort key of the top-polluted-regions report: `rows.sort(key=lambda
x: x[1], reverse=True)`, a stable sort on the displayed average,
descending. -/
def by_avg_desc (a b : String × ℚ × Nat) : Prop := b.2.1 ≤ a.2.1

instance : DecidableRel by_avg_desc :=
  fun a b => inferInstanceAs (Decidable (b.2.1 ≤ a.2.1))

instance : IsTotal (String × ℚ × Nat) by_avg_desc :=
  ⟨fun a b => le_total b.2.1 a.2.1⟩

instance : IsTrans (String × ℚ × Nat) by_avg_desc :=
  ⟨fun _ _ _ h1 h2 => le_trans h2 h1⟩

/-- Report option 1 of `generate_reports` (src/main.py lines 273-279):
group the records by region, build one row per region holding the
rounded average AQI and the group size, and stably sort the rows on the
rounded average, descending. Python `list.sort` is stable, and
`List.insertionSort` is the stable sort with the same comparisons. -/
def top_polluted_rows (air : List AirRec) : List (String × ℚ × Nat) :=
  List.insertionSort by_avg_desc
    ((group_aqi_by (fun r => r.region) air).map (fun kv => (kv.1, round1 (ratMean kv.2), kv.2.length)))

/-- Splitting a character list on the dash, the `-` structure of the
`%Y-%m-%d` pattern. -/
def splitOnDash : List Char → List (List Char)
  | [] => [[]]
  | c :: r =>
    match splitOnDash r with
    | [] => [[c]]
    | g :: gs => if c = '-' then [] :: g :: gs else (c :: g) :: gs

/-- Gregorian leap year, as the Python `datetime` module checks it. -/
def is_leap (y : Nat) : Bool :=
  y % 4 = 0 ∧ (y % 100 ≠ 0 ∨ y % 400 = 0)

/-- Days in a month, as the Python `datetime` module validates them. -/
def days_in_month (y m : Nat) : Nat :=
  if m = 2 then (if is_leap y then 29 else 28)
  else if m = 4 ∨ m = 6 ∨ m = 9 ∨ m = 11 then 30 else 31

/-- Model of `datetime.strptime(s, "%Y-%m-%d")`: a four-digit year, a
one- or two-digit month 1..12 and a one- or two-digit day valid for
that month, nothing else; `datetime` also rejects year 0. -/
def parse_date_ymd (s : String) : Option (Nat × Nat × Nat) :=
  match splitOnDash s.data with
  | [ys, ms, ds] =>
    if ys.length = 4 ∧ ys.all Char.isDigit
        ∧ 1 ≤ ms.length ∧ ms.length ≤ 2 ∧ ms.all Char.isDigit
        ∧ 1 ≤ ds.length ∧ ds.length ≤ 2 ∧ ds.all Char.isDigit then
      let y := digitsVal ys
      let m := digitsVal ms
      let d := digitsVal ds
      if 1 ≤ y ∧ 1 ≤ m ∧ m ≤ 12 ∧ 1 ≤ d ∧ d ≤ days_in_month y m then some (y, m, d)
      else none
    else none
  | _ => none

/-- Two-digit zero-padded month, the `{d.month:02d}` format. -/
def pad2 (n : Nat) : String :=
  if n < 10 then "0" ++ toString n else toString n

/-- The monthly-trend group key: `f"{d.year}-{d.month:02d}"` when the
date parses, the raw date string itself otherwise. -/
def month_key (s : String) : String :=
  match parse_date_ymd s with
  | some (y, m, _) => toString y ++ "-" ++ pad2 m
  | none => s

/-- Sort order of the monthly-trend rows: Python `sorted` on
(string, float) pairs compares lexicographically. -/
def month_asc (a b : String × ℚ) : Prop :=
  a.1 < b.1 ∨ (a.1 = b.1 ∧ a.2 ≤ b.2)

instance : DecidableRel month_asc :=
  fun a b => inferInstanceAs (Decidable (a.1 < b.1 ∨ (a.1 = b.1 ∧ a.2 ≤ b.2)))

instance : IsTotal (String × ℚ) month_asc := by
  constructor
  intro a b
  rcases lt_trichotomy a.1 b.1 with h | h | h
  · exact Or.inl (Or.inl h)
  · rcases le_total a.2 b.2 with h2 | h2
    · exact Or.inl (Or.inr ⟨h, h2⟩)
    · exact Or.inr (Or.inr ⟨h.symm, h2⟩)
  · exact Or.inr (Or.inl h)

instance : IsTrans (String × ℚ) month_asc := by
  constructor
  intro a b c h1 h2
  rcases h1 with h1 | ⟨e1, v1⟩
  · rcases h2 with h2 | ⟨e2, v2⟩
    · exact Or.inl (lt_trans h1 h2)
    · exact Or.inl (e2 ▸ h1)
  · rcases h2 with h2 | ⟨e2, v2⟩
    · exact Or.inl (e1 ▸ h2)
    · exact Or.inr ⟨e1.trans e2, le_trans v1 v2⟩

/-- Report option 2 of `generate_reports` (src/main.py lines 280-295):
filter the records on a case-insensitive region match, group them by
`month_key` of the date, compute the unrounded mean AQI per group and
sort the (key, mean) pairs ascending. -/
def monthly_trend (air : List AirRec) (regionIn : String) : List (String × ℚ) :=
  let rows := air.filter (fun r => pyLower r.region = pyLower regionIn)
  List.insertionSort month_asc
    ((group_aqi_by (fun r => month_key r.date) rows).map (fun kv => (kv.1, ratMean kv.2)))

/-- Search option 2 of `search_historical_data`: case-insensitive exact
region match. -/
def search_by_region (air : List AirRec) (regionIn : String) : List AirRec :=
  air.filter (fun r => pyLower r.region = pyLower regionIn)

/-- One step of the `latest` dict loop of search option 4: a new region
is appended, a known region is overwritten in place when the new record
has a strictly greater date string. -/
def latest_update (acc : List (String × AirRec)) (r : AirRec) : List (String × AirRec) :=
  match acc with
  | [] => [(r.region, r)]
  | (k, v) :: rest =>
    if k = r.region then (if v.date < r.date then (k, r) :: rest else (k, v) :: rest)
    else (k, v) :: latest_update rest r

/-- Search option 4 of `search_historical_data` (src/main.py lines
407-413): the values of the `latest` dict after walking all records,
keyed by the exact (case-sensitive) region string. -/
def search_all_regions_latest (air : List AirRec) : List AirRec :=
  (air.foldl latest_update []).map (fun kv => kv.2)

/-- A parsed JSON value, the result type of `json.load`. -/
inductive PyJson where
  | null
  | bool (b : Bool)
  | num (q : ℚ)
  | str (s : String)
  | arr (items : List PyJson)
  | obj (fields : List (String × PyJson))

/-- `load_json` of src/main.py over `ensure_data_dir`: a missing file
is first created holding `[]`, then the contents are parsed, and any
parse failure is swallowed into the empty list. The JSON parser itself
is a library external to the repository, so it is a parameter. -/
def load_json (disk : Option String) (parse : String → Option PyJson) : PyJson :=
  match parse (disk.getD "[]") with
  | some j => j
  | none => .arr []

/-- A stub parser used to exercise `load_json` at concrete inputs: it
recognises only the empty array. -/
def parse_empty_only : String → Option PyJson :=
  fun s => if s = "[]" then some (.arr []) else none

/-- `row.get(k)` on a CSV row or JSON object modelled as an association
list with unique keys. -/
def lookupStr (row : List (String × String)) (k : String) : Option String :=
  (row.find? (fun kv => kv.1 = k)).map (fun kv => kv.2)

/-- The pollutant-column loop of the CSV import: every known pollutant
name present in the row with a non-empty cell is parsed with
`safe_float` and assigned into the pollutants dict. -/
def csv_pollutants (ns : List String) (row : List (String × String)) :
    List (String × PyFloat) :=
  ns.foldl (fun m pn =>
    match lookupStr row pn with
    | some v => if v = "" then m else dictInsert m pn (safe_float v (.finite 0))
    | none => m) []

/-- One CSV row of `upload_bulk_data` turned into a record: missing
region and health_risk default to the empty string, a missing date to
today, a missing AQI cell to 0, and `int(safe_float(...))` can raise. -/
def csv_row_to_rec (ns : List String) (rid : String) (row : List (String × String))
    (today : String) : Except String AirRec :=
  match (match lookupStr row "AQI" with
         | none => Except.ok (0 : Int)
         | some s => pyIntOfFloat (safe_float s (.finite 0))) with
  | .error e => .error e
  | .ok aqi =>
    .ok ⟨rid, (lookupStr row "region").getD "",
         (lookupStr row "date").getD today, aqi,
         csv_pollutants ns row,
         (lookupStr row "health_risk").getD ""⟩

/-- Whether the AQI cell of a CSV row coerces without raising. -/
def csv_row_ok (row : List (String × String)) : Bool :=
  match lookupStr row "AQI" with
  | none => true
  | some s =>
    match safe_float s (.finite 0) with
    | .finite _ => true
    | _ => false

/-- The CSV branch loop of `upload_bulk_data`: rows in order, the k-th
processed row getting the k-th generated id, appended to the
accumulated collection; an exception aborts everything unsaved. -/
def upload_csv_go (ns : List String) (gen : Nat → String) (today : String) :
    List (List (String × String)) → Nat → List AirRec → Except String (List AirRec × Nat)
  | [], k, acc => .ok (acc, k)
  | row :: rest, k, acc =>
    match csv_row_to_rec ns (gen k) row today with
    | .error e => .error e
    | .ok r => upload_csv_go ns gen today rest (k + 1) (acc ++ [r])

/-- The CSV branch of `upload_bulk_data` (src/main.py lines 241-262):
the saved collection and the count of imported rows. -/
def upload_csv (air : List AirRec) (ns : List String) (gen : Nat → String)
    (rows : List (List (String × String))) (today : String) :
    Except String (List AirRec × Nat) :=
  upload_csv_go ns gen today rows 0 air

/-- A record map read from a bulk-import JSON list: an optional
`record_id` entry plus the remaining fields, kept opaque because the
source appends the map to the collection as-is. -/
structure JsonRow where
  record_id : Option String
  fields : List (String × String)
deriving DecidableEq, Repr

/-- The records the JSON branch of `upload_bulk_data` appends: a row
carrying a `record_id` keeps it, only a row without one receives the
next freshly generated id. -/
def json_import_list (gen : Nat → String) : Nat → List JsonRow → List (String × List (String × String))
  | _, [] => []
  | k, row :: rest =>
    match row.record_id with
    | some rid => (rid, row.fields) :: json_import_list gen k rest
    | none => (gen k, row.fields) :: json_import_list gen (k + 1) rest

/-- Accumulator form of the JSON branch loop of `upload_bulk_data`. -/
def upload_json_go (gen : Nat → String) :
    List JsonRow → Nat → List (String × List (String × String)) → List (String × List (String × String))
  | [], _, acc => acc
  | row :: rest, k, acc =>
    match row.record_id with
    | some rid => upload_json_go gen rest k (acc ++ [(rid, row.fields)])
    | none => upload_json_go gen rest (k + 1) (acc ++ [(gen k, row.fields)])

/-- The JSON branch of `upload_bulk_data` (src/main.py lines 229-240):
each row of the list is appended to the collection, with a fresh id
assigned only when the row has none. -/
def upload_json (air : List (String × List (String × String))) (gen : Nat → String)
    (rows : List JsonRow) : List (String × List (String × String)) :=
  upload_json_go gen rows 0 air

/-!
Theorems. First a set of helper lemmas about the list operations the
program uses, then one theorem per claim of the specification, each
with its witness or counterexample where called for.
-/

theorem find_by_id_eq_none_of_not_mem {α : Type} {l : List α} {key : α → String} {v : String}
    (h : v ∉ l.map key) : find_by_id l key v = none := by
  apply List.find?_eq_none.mpr
  intro x hx
  simp only [decide_eq_true_eq]
  exact fun he => h (List.mem_map.mpr ⟨x, hx, he⟩)

theorem find_by_id_first {α : Type} {l1 l2 : List α} {x : α} {key : α → String} {v : String}
    (hx : key x = v) (h1 : v ∉ l1.map key) :
    find_by_id (l1 ++ x :: l2) key v = some x := by
  induction l1 with
  | nil => simp [find_by_id, List.find?_cons_of_pos, hx]
  | cons a t ih =>
    have ha : key a ≠ v := fun e => h1 (by simp [e])
    have ht : v ∉ t.map key := fun hm => h1 (by simp [hm])
    simpa [find_by_id, List.find?_cons_of_neg, ha] using ih ht

theorem exists_first_split {α : Type} {l : List α} {key : α → String} {v : String}
    (h : v ∈ l.map key) :
    ∃ l1 x l2, l = l1 ++ x :: l2 ∧ key x = v ∧ v ∉ l1.map key := by
  induction l with
  | nil => simp at h
  | cons a t ih =>
    by_cases ha : key a = v
    · exact ⟨[], a, t, rfl, ha, by simp⟩
    · have h2 : v ∈ t.map key := by
        rcases (by simpa using h : v = key a ∨ ∃ b ∈ t, key b = v) with h3 | ⟨b, hb, he⟩
        · exact absurd h3.symm ha
        · exact List.mem_map.mpr ⟨b, hb, he⟩
      obtain ⟨l1, x, l2, he, hk, hn⟩ := ih h2
      refine ⟨a :: l1, x, l2, by simp [he], hk, ?_⟩
      simp only [List.map_cons, List.mem_cons]
      rintro (h4 | h4)
      · exact ha h4.symm
      · exact hn h4

theorem filter_key_ne {α : Type} {l1 l2 : List α} {x : α} {key : α → String} {v : String}
    (hx : key x = v) (h1 : v ∉ l1.map key) (h2 : v ∉ l2.map key) :
    (l1 ++ x :: l2).filter (fun r => key r ≠ v) = l1 ++ l2 := by
  have e1 : l1.filter (fun r => !decide (key r = v)) = l1 :=
    List.filter_eq_self.mpr (fun a ha => by
      simp only [Bool.not_eq_true', decide_eq_false_iff_not]
      exact fun e => h1 (List.mem_map.mpr ⟨a, ha, e⟩))
  have e2 : l2.filter (fun r => !decide (key r = v)) = l2 :=
    List.filter_eq_self.mpr (fun a ha => by
      simp only [Bool.not_eq_true', decide_eq_false_iff_not]
      exact fun e => h2 (List.mem_map.mpr ⟨a, ha, e⟩))
  simp [List.filter_append, List.filter_cons, hx, e1, e2]

theorem replace_first_append_cons {α : Type} {l1 l2 : List α} {x x2 : α} {key : α → String}
    {v : String} (hx : key x = v) (h1 : v ∉ l1.map key) :
    replace_first (l1 ++ x :: l2) key v x2 = l1 ++ x2 :: l2 := by
  induction l1 with
  | nil => simp [replace_first, hx]
  | cons a t ih =>
    have ha : key a ≠ v := fun e => h1 (by simp [e])
    have ht : v ∉ t.map key := fun hm => h1 (by simp [hm])
    simp [replace_first, ha, ih ht]

/-- Claim C7: for every air collection with unique record ids and every
id present in it, the delete action removes exactly that one record:
the collection splits as l1 ++ x :: l2 around the record with the id,
the saved collection is l1 ++ l2 (every other record untouched, in
order), and its length drops by exactly one. -/
theorem C7_delete_removes_exactly_one (air : List AirRec)
    (regionIn dateIn aqiIn : String) (pollIn : String → String) (rid : String)
    (hnd : (air.map (fun r => r.record_id)).Nodup)
    (hmem : rid ∈ air.map (fun r => r.record_id)) (hrid : rid ≠ "") :
    ∃ l1 x l2, air = l1 ++ x :: l2 ∧ x.record_id = rid ∧
      rid ∉ (l1 ++ l2).map (fun r => r.record_id) ∧
      update_delete_aq_record air rid "d" regionIn dateIn aqiIn pollIn
        = .ok (l1 ++ l2, true, ["Deleted."]) ∧
      (l1 ++ l2).length + 1 = air.length := by
  obtain ⟨l1, x, l2, he, hk, hn1⟩ := exists_first_split hmem
  have hn2 : rid ∉ l2.map (fun r => r.record_id) := by
    rw [he, List.map_append, List.map_cons] at hnd
    have h4 := (List.nodup_append.mp hnd).2.1
    rw [List.nodup_cons] at h4
    exact hk ▸ h4.1
  have hair : air ≠ [] := by
    rw [he]
    exact List.append_ne_nil_of_right_ne_nil l1 (List.cons_ne_nil x l2)
  refine ⟨l1, x, l2, he, hk, ?_, ?_, ?_⟩
  · simp only [List.map_append, List.mem_append]
    rintro (h | h)
    · exact hn1 h
    · exact hn2 h
  · rw [update_delete_aq_record, if_neg hair, if_neg hrid, he,
      find_by_id_first hk hn1]
    simp only [reduceIte, filter_key_ne hk hn1 hn2]
  · rw [he]
    simp only [List.length_append, List.length_cons]
    omega

/-- Witness for claim C7 at a concrete two-record collection: deleting
the second record keeps exactly the first. -/
theorem C7_witness :
    ∃ l1 x l2,
      ([⟨"rec_a", "R1", "2025-01-01", 10, [], ""⟩,
        ⟨"rec_b", "R2", "2025-01-02", 20, [], ""⟩] : List AirRec) = l1 ++ x :: l2 ∧
      x.record_id = "rec_b" ∧
      "rec_b" ∉ (l1 ++ l2).map (fun r => r.record_id) ∧
      update_delete_aq_record
          [⟨"rec_a", "R1", "2025-01-01", 10, [], ""⟩,
           ⟨"rec_b", "R2", "2025-01-02", 20, [], ""⟩] "rec_b" "d" "" "" "" (fun _ => "")
        = .ok (l1 ++ l2, true, ["Deleted."]) ∧
      (l1 ++ l2).length + 1
        = ([⟨"rec_a", "R1", "2025-01-01", 10, [], ""⟩,
            ⟨"rec_b", "R2", "2025-01-02", 20, [], ""⟩] : List AirRec).length :=
  C7_delete_removes_exactly_one
    [⟨"rec_a", "R1", "2025-01-01", 10, [], ""⟩, ⟨"rec_b", "R2", "2025-01-02", 20, [], ""⟩]
    "" "" "" (fun _ => "") "rec_b" (by decide) (by decide) (by decide)

/-- Claim C8, amended: for every alert list with unique ids and every
id of an alert in it, withdrawing sets that alert's status to
"withdrawn" regardless of its previous value (in particular from
"active"), leaving every other field of the alert and every other alert
unchanged. -/
theorem C8_withdraw_sets_status (alerts : List Alert)
    (regionIn levelIn expiryIn newId today : String) (aid : String)
    (hnd : (alerts.map (fun a => a.alert_id)).Nodup)
    (hmem : aid ∈ alerts.map (fun a => a.alert_id)) :
    ∃ l1 a l2, alerts = l1 ++ a :: l2 ∧ a.alert_id = aid ∧
      manage_alerts alerts "2" aid regionIn levelIn expiryIn newId today
        = (l1 ++ ⟨a.alert_id, a.region, a.AQI_level, "withdrawn", a.issue_date, a.expiry_date⟩ :: l2,
           true, ["Alert withdrawn."]) := by
  obtain ⟨l1, a, l2, he, hk, hn1⟩ := exists_first_split hmem
  refine ⟨l1, a, l2, he, hk, ?_⟩
  rw [manage_alerts, if_neg (by decide), if_pos rfl, he, find_by_id_first hk hn1]
  dsimp only
  rw [replace_first_append_cons hk hn1]

/-- Witness for claim C8: withdrawing the second of two active alerts
flips exactly its status. -/
theorem C8_witness :
    ∃ l1 a l2,
      ([⟨"alert_1", "Delhi", "High", "active", "2025-01-05", ""⟩,
        ⟨"alert_2", "Kanpur", "Hazardous", "active", "2025-01-06", ""⟩] : List Alert)
        = l1 ++ a :: l2 ∧
      a.alert_id = "alert_2" ∧
      manage_alerts
          [⟨"alert_1", "Delhi", "High", "active", "2025-01-05", ""⟩,
           ⟨"alert_2", "Kanpur", "Hazardous", "active", "2025-01-06", ""⟩]
          "2" "alert_2" "" "" "" "x" "2025-01-07"
        = (l1 ++ ⟨a.alert_id, a.region, a.AQI_level, "withdrawn", a.issue_date, a.expiry_date⟩ :: l2,
           true, ["Alert withdrawn."]) :=
  C8_withdraw_sets_status
    [⟨"alert_1", "Delhi", "High", "active", "2025-01-05", ""⟩,
     ⟨"alert_2", "Kanpur", "Hazardous", "active", "2025-01-06", ""⟩]
    "" "" "" "x" "2025-01-07" "alert_2" (by decide) (by decide)

/-- Counterexample to claim C8 as stated: the source sets the status to
"withdrawn" unconditionally, so an alert whose status is "expired" (not
"active") also transitions, while the claim allows no transition other
than active to withdrawn. -/
theorem C8_cex :
    manage_alerts [⟨"alert_1", "Delhi", "High", "expired", "2025-01-01", "2025-01-02"⟩]
        "2" "alert_1" "" "" "" "x" "2025-01-07"
      = ([⟨"alert_1", "Delhi", "High", "withdrawn", "2025-01-01", "2025-01-02"⟩],
         true, ["Alert withdrawn."])
      ∧ "expired" ≠ "active" := by
  exact ⟨by with_unfolding_all rfl, by decide⟩

/-- Claim C6, amended: on an identifier matching nothing, the air
record update/delete prints "Record not found." and the pollutant
update prints "Not found.", each aborting with the collection unchanged
and unsaved; the pollutant delete instead always prints "Deleted if
existed." and rewrites the collection (whose content is unchanged); the
alert withdrawal silently does nothing, printing no message at all.
None of them raises. -/
theorem C6_missing_id_behaviour (air : List AirRec) (ps : List Pollutant) (alerts : List Alert)
    (action regionIn dateIn aqiIn : String) (pollIn : String → String)
    (nameIn descIn slIn newId : String)
    (aRegionIn levelIn expiryIn aNewId today : String)
    (rid pid aid : String)
    (hair : air ≠ []) (hrid : rid ≠ "")
    (h1 : rid ∉ air.map (fun r => r.record_id))
    (h2 : pid ∉ ps.map (fun p => p.pollutant_id))
    (h3 : aid ∉ alerts.map (fun a => a.alert_id)) :
    update_delete_aq_record air rid action regionIn dateIn aqiIn pollIn
      = .ok (air, false, ["Record not found."]) ∧
    manage_pollutants ps "2" pid nameIn descIn slIn newId = (ps, false, ["Not found."]) ∧
    manage_pollutants ps "3" pid nameIn descIn slIn newId
      = (ps, true, ["Deleted if existed."]) ∧
    manage_alerts alerts "2" aid aRegionIn levelIn expiryIn aNewId today
      = (alerts, false, []) := by
  have hfilter : ps.filter (fun x => x.pollutant_id ≠ pid) = ps :=
    List.filter_eq_self.mpr (fun a ha => by
      simp only [ne_eq, decide_not, Bool.not_eq_true', decide_eq_false_iff_not]
      exact fun e => h2 (List.mem_map.mpr ⟨a, ha, e⟩))
  refine ⟨?_, ?_, ?_, ?_⟩
  · rw [update_delete_aq_record, if_neg hair, if_neg hrid,
      find_by_id_eq_none_of_not_mem h1]
  · rw [manage_pollutants, if_neg (by decide), if_pos rfl,
      find_by_id_eq_none_of_not_mem h2]
  · rw [manage_pollutants, if_neg (by decide), if_neg (by decide), if_pos rfl, hfilter]
  · rw [manage_alerts, if_neg (by decide), if_pos rfl,
      find_by_id_eq_none_of_not_mem h3]

/-- Witness for claim C6 at concrete one-element collections and the
missing identifier "nope". -/
theorem C6_witness :
    update_delete_aq_record [⟨"rec_a", "R1", "2025-01-01", 10, [], ""⟩] "nope" "d" "" "" ""
        (fun _ => "")
      = .ok ([⟨"rec_a", "R1", "2025-01-01", 10, [], ""⟩], false, ["Record not found."]) ∧
    manage_pollutants [⟨"pol_1", "PM2.5", "", .finite 60⟩] "2" "nope" "" "" "" "x"
      = ([⟨"pol_1", "PM2.5", "", .finite 60⟩], false, ["Not found."]) ∧
    manage_pollutants [⟨"pol_1", "PM2.5", "", .finite 60⟩] "3" "nope" "" "" "" "x"
      = ([⟨"pol_1", "PM2.5", "", .finite 60⟩], true, ["Deleted if existed."]) ∧
    manage_alerts [⟨"alert_1", "Delhi", "High", "active", "2025-01-05", ""⟩]
        "2" "nope" "" "" "" "x" "2025-01-07"
      = ([⟨"alert_1", "Delhi", "High", "active", "2025-01-05", ""⟩], false, []) :=
  C6_missing_id_behaviour
    [⟨"rec_a", "R1", "2025-01-01", 10, [], ""⟩]
    [⟨"pol_1", "PM2.5", "", .finite 60⟩]
    [⟨"alert_1", "Delhi", "High", "active", "2025-01-05", ""⟩]
    "d" "" "" "" (fun _ => "") "" "" "" "x" "" "" "" "x" "2025-01-07"
    "nope" "nope" "nope"
    (by decide) (by decide) (by decide) (by decide) (by decide)

/-- Counterexample to claim C6 as stated: withdrawing an alert by an
identifier matching nothing prints no message at all (the source only
acts inside `if a:`), while the claim requires a "not found" message
for the alert withdrawal too. -/
theorem C6_cex :
    manage_alerts [⟨"alert_1", "Delhi", "High", "active", "2025-01-05", ""⟩]
        "2" "missing" "" "" "" "x" "2025-01-06"
      = ([⟨"alert_1", "Delhi", "High", "active", "2025-01-05", ""⟩], false, ([] : List String)) := by
  with_unfolding_all rfl

/-- Claim C5, amended: the AQI stored by `add_air_quality_record` is an
integer obtained by best-effort coercion of the input: a parsable
finite number is truncated toward zero (negative input giving a
negative stored AQI: non-negativity is not enforced), an unparsable
input is stored as 0, and an infinite or NaN input raises so that no
record is stored; the CSV bulk import stores its AQI cell through the
same coercion. -/
theorem C5_aqi_coercion (air : List AirRec) (ps : List Pollutant)
    (rid region dateIn s today : String) (pollIn : String → String) :
    (∀ q : ℚ, parseFloat s = some (.finite q) →
      add_air_quality_record air ps rid region dateIn s pollIn today
        = .ok (air ++ [⟨rid, region, if dateIn = "" then today else dateIn, ratTrunc q,
                        pollutant_levels ps pollIn, ""⟩], "Record added.")) ∧
    (parseFloat s = none →
      add_air_quality_record air ps rid region dateIn s pollIn today
        = .ok (air ++ [⟨rid, region, if dateIn = "" then today else dateIn, 0,
                        pollutant_levels ps pollIn, ""⟩], "Record added.")) ∧
    ((parseFloat s = some .inf ∨ parseFloat s = some .negInf ∨ parseFloat s = some .nan) →
      ∃ e, add_air_quality_record air ps rid region dateIn s pollIn today = .error e) ∧
    (∀ (ns : List String) (rid2 : String) (row : List (String × String)) (today2 : String)
        (r : AirRec), csv_row_to_rec ns rid2 row today2 = .ok r →
      lookupStr row "AQI" = some s →
      pyIntOfFloat (safe_float s (.finite 0)) = .ok r.AQI) := by
  have hemp : parseFloat "" = none := rfl
  have htrunc0 : ratTrunc 0 = 0 := by with_unfolding_all rfl
  refine ⟨?_, ?_, ?_, ?_⟩
  · intro q hq
    have hs : s ≠ "" := fun he => by rw [he, hemp] at hq; exact Option.noConfusion hq
    rw [add_air_quality_record, if_neg hs, safe_float, hq]
    rfl
  · intro hq
    by_cases hs : s = ""
    · rw [add_air_quality_record, if_pos hs]
      simp only [pyIntOfFloat, htrunc0]
    · rw [add_air_quality_record, if_neg hs, safe_float, hq]
      simp only [Option.getD_none, pyIntOfFloat, htrunc0]
  · intro hq
    have hs : s ≠ "" := by
      rintro he
      rw [he, hemp] at hq
      rcases hq with h | h | h <;> exact Option.noConfusion h
    rcases hq with h | h | h <;>
      { rw [add_air_quality_record, if_neg hs, safe_float, h]
        exact ⟨_, rfl⟩ }
  · intro ns rid2 row today2 r hok hlook
    rw [csv_row_to_rec, hlook] at hok
    dsimp only at hok
    cases hv : pyIntOfFloat (safe_float s (.finite 0)) with
    | error e => rw [hv] at hok; exact Except.noConfusion hok
    | ok n =>
      rw [hv] at hok
      dsimp only at hok
      rw [Except.ok.injEq] at hok
      rw [← hok]

/-- Counterexample to claim C5 as stated: the AQI input "-5" is stored
as the negative integer -5; nothing clamps the stored AQI to be
non-negative. -/
theorem C5_cex :
    add_air_quality_record [] [] "rec_0" "R1" "2025-01-02" "-5" (fun _ => "") "2025-01-02"
      = .ok ([⟨"rec_0", "R1", "2025-01-02", -5, [], ""⟩], "Record added.")
      ∧ (-5 : Int) < 0 :=
  ⟨by with_unfolding_all rfl, by norm_num⟩

/-- Claim C4: for every collection, loading returns the empty list when
the file is missing (it is created holding the empty array first) or
when its contents do not parse as JSON; malformed persisted JSON is
swallowed into an empty collection, no error reaching the caller. -/
theorem C4_load_empty_on_missing_or_malformed (parse : String → Option PyJson)
    (hp : parse "[]" = some (.arr [])) (s : String) (hs : parse s = none) :
    load_json none parse = .arr [] ∧ load_json (some s) parse = .arr [] := by
  constructor
  · rw [load_json, Option.getD_none, hp]
  · rw [load_json, Option.getD_some, hs]

/-- Witness for claim C4 with the stub parser: a missing file and the
unparsable contents "not json" both load as the empty array. -/
theorem C4_witness :
    load_json none parse_empty_only = .arr []
      ∧ load_json (some "not json") parse_empty_only = .arr [] :=
  C4_load_empty_on_missing_or_malformed parse_empty_only rfl "not json" rfl

theorem upload_json_go_eq (gen : Nat → String) (rows : List JsonRow) :
    ∀ (k : Nat) (acc : List (String × List (String × String))),
      upload_json_go gen rows k acc = acc ++ json_import_list gen k rows := by
  induction rows with
  | nil => intro k acc; simp [upload_json_go, json_import_list]
  | cons row rest ih =>
    intro k acc
    cases h : row.record_id with
    | some rid => simp [upload_json_go, json_import_list, h, ih]
    | none => simp [upload_json_go, json_import_list, h, ih]

theorem json_import_list_length (gen : Nat → String) (rows : List JsonRow) :
    ∀ k, (json_import_list gen k rows).length = rows.length := by
  induction rows with
  | nil => intro k; rfl
  | cons row rest ih =>
    intro k
    cases h : row.record_id with
    | some rid => simp [json_import_list, h, ih]
    | none => simp [json_import_list, h, ih]

theorem json_import_list_fields (gen : Nat → String) (rows : List JsonRow) :
    ∀ k, (json_import_list gen k rows).map Prod.snd = rows.map (fun row => row.fields) := by
  induction rows with
  | nil => intro k; rfl
  | cons row rest ih =>
    intro k
    cases h : row.record_id with
    | some rid => simp [json_import_list, h, ih]
    | none => simp [json_import_list, h, ih]

theorem mem_dictInsert_self {α : Type} (m : List (String × α)) (k : String) (v : α) :
    (k, v) ∈ dictInsert m k v := by
  induction m with
  | nil => simp [dictInsert]
  | cons kv r ih =>
    by_cases h : kv.1 = k
    · simp [dictInsert, h]
    · simp only [dictInsert]
      rw [if_neg h]
      exact List.mem_cons_of_mem _ ih

theorem mem_dictInsert_of_mem {α : Type} (m : List (String × α)) (k : String) (v : α)
    {k2 : String} {v2 : α} (hne : k2 ≠ k) (h : (k2, v2) ∈ m) :
    (k2, v2) ∈ dictInsert m k v := by
  induction m with
  | nil => simp at h
  | cons kv r ih =>
    by_cases hk : kv.1 = k
    · simp only [dictInsert]
      rw [if_pos hk]
      rcases List.mem_cons.mp h with h2 | h2
      · exact absurd (show k2 = k by rw [← h2] at hk; exact hk) hne
      · exact List.mem_cons_of_mem _ h2
    · simp only [dictInsert]
      rw [if_neg hk]
      rcases List.mem_cons.mp h with h2 | h2
      · exact h2 ▸ List.mem_cons_self _ _
      · exact List.mem_cons_of_mem _ (ih h2)

theorem csv_pollutants_mem (row : List (String × String)) (pn v : String)
    (hlook : lookupStr row pn = some v) (hne : v ≠ "") :
    ∀ (ns : List String) (m : List (String × PyFloat)),
      ((pn, safe_float v (.finite 0)) ∈ m ∨ pn ∈ ns) →
      (pn, safe_float v (.finite 0)) ∈ ns.foldl (fun m2 pn2 =>
        match lookupStr row pn2 with
        | some w => if w = "" then m2 else dictInsert m2 pn2 (safe_float w (.finite 0))
        | none => m2) m := by
  intro ns
  induction ns with
  | nil =>
    intro m h
    rcases h with h | h
    · exact h
    · simp at h
  | cons n rest ih =>
    intro m h
    rw [List.foldl_cons]
    apply ih
    by_cases hn : n = pn
    · subst hn
      refine Or.inl ?_
      simp only [hlook]
      rw [if_neg hne]
      exact mem_dictInsert_self m n _
    · rcases h with h | h
      · refine Or.inl ?_
        cases hl2 : lookupStr row n with
        | none => simpa [hl2] using h
        | some w =>
          simp only [hl2]
          by_cases hw : w = ""
          · rw [if_pos hw]; exact h
          · rw [if_neg hw]
            exact mem_dictInsert_of_mem m n _ (fun e => hn e.symm) h
      · rcases List.mem_cons.mp h with h2 | h2
        · exact absurd h2.symm hn
        · exact Or.inr h2

theorem csv_row_to_rec_of_ok (ns : List String) (rid : String) (row : List (String × String))
    (today : String) (h : csv_row_ok row = true) :
    ∃ aqi : Int, csv_row_to_rec ns rid row today
      = .ok ⟨rid, (lookupStr row "region").getD "", (lookupStr row "date").getD today, aqi,
             csv_pollutants ns row, (lookupStr row "health_risk").getD ""⟩ := by
  rw [csv_row_ok] at h
  cases hl : lookupStr row "AQI" with
  | none => exact ⟨0, by rw [csv_row_to_rec, hl]⟩
  | some s =>
    rw [hl] at h
    replace h := show (match safe_float s (.finite 0) with
      | PyFloat.finite _ => true
      | _ => false) = true from h
    cases hsf : safe_float s (.finite 0) with
    | finite q =>
      refine ⟨ratTrunc q, ?_⟩
      rw [csv_row_to_rec, hl]
      dsimp only
      rw [hsf]
      rfl
    | inf => rw [hsf] at h; exact Bool.noConfusion h
    | negInf => rw [hsf] at h; exact Bool.noConfusion h
    | nan => rw [hsf] at h; exact Bool.noConfusion h

theorem upload_csv_go_ok (ns : List String) (gen : Nat → String) (today : String)
    (rows : List (List (String × String))) :
    ∀ (k : Nat) (acc : List AirRec), (∀ row ∈ rows, csv_row_ok row = true) →
    ∃ L : List AirRec, upload_csv_go ns gen today rows k acc = .ok (acc ++ L, k + rows.length) ∧
      L.map (fun r => r.record_id) = (List.range' k rows.length).map gen ∧
      L.map (fun r => r.pollutants) = rows.map (fun row => csv_pollutants ns row) := by
  induction rows with
  | nil =>
    intro k acc _
    exact ⟨[], by simp [upload_csv_go], by simp, by simp⟩
  | cons row rest ih =>
    intro k acc h
    obtain ⟨aqi, hr⟩ := csv_row_to_rec_of_ok ns (gen k) row today (h row (List.mem_cons_self row rest))
    obtain ⟨L, hgo, hids, hpolls⟩ := ih (k + 1) (acc ++ [⟨gen k, (lookupStr row "region").getD "",
      (lookupStr row "date").getD today, aqi, csv_pollutants ns row,
      (lookupStr row "health_risk").getD ""⟩]) (fun r2 h2 => h r2 (List.mem_cons_of_mem _ h2))
    refine ⟨⟨gen k, (lookupStr row "region").getD "", (lookupStr row "date").getD today, aqi,
      csv_pollutants ns row, (lookupStr row "health_risk").getD ""⟩ :: L, ?_, ?_, ?_⟩
    · have harith : k + 1 + rest.length = k + (rest.length + 1) := by omega
      rw [upload_csv_go, hr]
      dsimp only
      rw [hgo, List.append_assoc, harith]
      rfl
    · simp only [List.map_cons, hids, List.range'_succ, List.map]
    · simp only [List.map_cons, hpolls, List.map]

/-- Claim C9, amended: the JSON branch appends exactly one record per
imported row, in order, with the row's own record_id kept when present
and a fresh id assigned only when absent; the CSV branch (when no AQI
cell raises) appends one record per row, every one with a freshly
generated id, its pollutants mapping holding the parsed value of every
known pollutant column with a non-empty cell; concretely, a 2-row CSV
with the known column PM2.5 yields two new records whose pollutants
hold the parsed values 12.5 and 7.5. -/
theorem C9_bulk_import (air : List AirRec) (ns : List String) (gen : Nat → String)
    (rows : List (List (String × String))) (today : String)
    (jair : List (String × List (String × String))) (jgen : Nat → String)
    (jrows : List JsonRow)
    (hrows : ∀ row ∈ rows, csv_row_ok row = true) :
    (upload_json jair jgen jrows = jair ++ json_import_list jgen 0 jrows ∧
     (json_import_list jgen 0 jrows).length = jrows.length ∧
     (json_import_list jgen 0 jrows).map Prod.snd = jrows.map (fun row => row.fields)) ∧
    (∃ L : List AirRec,
      upload_csv air ns gen rows today = .ok (air ++ L, rows.length) ∧
      L.map (fun r => r.record_id) = (List.range rows.length).map gen ∧
      L.map (fun r => r.pollutants) = rows.map (fun row => csv_pollutants ns row)) ∧
    (∀ (row : List (String × String)) (pn v : String),
      pn ∈ ns → lookupStr row pn = some v → v ≠ "" →
      (pn, safe_float v (.finite 0)) ∈ csv_pollutants ns row) ∧
    upload_csv [] ["PM2.5"] (fun n => "rec_" ++ toString n)
        [[("region", "A"), ("date", "2025-01-01"), ("AQI", "100"), ("PM2.5", "12.5")],
         [("region", "B"), ("date", "2025-01-02"), ("AQI", "80"), ("PM2.5", "7.5")]]
        "2025-01-10"
      = .ok ([⟨"rec_0", "A", "2025-01-01", 100, [("PM2.5", .finite (25 / 2))], ""⟩,
              ⟨"rec_1", "B", "2025-01-02", 80, [("PM2.5", .finite (15 / 2))], ""⟩], 2) := by
  refine ⟨⟨upload_json_go_eq jgen jrows 0 jair, json_import_list_length jgen jrows 0,
      json_import_list_fields jgen jrows 0⟩, ?_, ?_, ?_⟩
  · obtain ⟨L, hgo, hids, hpolls⟩ := upload_csv_go_ok ns gen today rows 0 air hrows
    refine ⟨L, ?_, ?_, hpolls⟩
    · rw [upload_csv, hgo, Nat.zero_add]
    · rw [hids, List.range_eq_range']
  · intro row pn v hpn hlook hne
    exact csv_pollutants_mem row pn v hlook hne ns [] (Or.inr hpn)
  · with_unfolding_all rfl

/-- Witness for claim C9: the theorem applied with empty collections, a
one-row JSON list and the concrete 2-row CSV of the claim. -/
theorem C9_witness :
    (upload_json [] (fun n => "rec_" ++ toString n) [⟨none, [("region", "X")]⟩]
        = [] ++ json_import_list (fun n => "rec_" ++ toString n) 0 [⟨none, [("region", "X")]⟩] ∧
     (json_import_list (fun n => "rec_" ++ toString n) 0 [⟨none, [("region", "X")]⟩]).length
        = ([⟨none, [("region", "X")]⟩] : List JsonRow).length ∧
     (json_import_list (fun n => "rec_" ++ toString n) 0 [⟨none, [("region", "X")]⟩]).map Prod.snd
        = ([⟨none, [("region", "X")]⟩] : List JsonRow).map (fun row => row.fields)) ∧
    (∃ L : List AirRec,
      upload_csv [] ["PM2.5"] (fun n => "rec_" ++ toString n)
          [[("region", "A"), ("date", "2025-01-01"), ("AQI", "100"), ("PM2.5", "12.5")],
           [("region", "B"), ("date", "2025-01-02"), ("AQI", "80"), ("PM2.5", "7.5")]]
          "2025-01-10"
        = .ok ([] ++ L, 2) ∧
      L.map (fun r => r.record_id)
        = (List.range 2).map (fun n => "rec_" ++ toString n) ∧
      L.map (fun r => r.pollutants)
        = [[("region", "A"), ("date", "2025-01-01"), ("AQI", "100"), ("PM2.5", "12.5")],
           [("region", "B"), ("date", "2025-01-02"), ("AQI", "80"), ("PM2.5", "7.5")]].map
            (fun row => csv_pollutants ["PM2.5"] row)) ∧
    (∀ (row : List (String × String)) (pn v : String),
      pn ∈ ["PM2.5"] → lookupStr row pn = some v → v ≠ "" →
      (pn, safe_float v (.finite 0)) ∈ csv_pollutants ["PM2.5"] row) ∧
    upload_csv [] ["PM2.5"] (fun n => "rec_" ++ toString n)
        [[("region", "A"), ("date", "2025-01-01"), ("AQI", "100"), ("PM2.5", "12.5")],
         [("region", "B"), ("date", "2025-01-02"), ("AQI", "80"), ("PM2.5", "7.5")]]
        "2025-01-10"
      = .ok ([⟨"rec_0", "A", "2025-01-01", 100, [("PM2.5", .finite (25 / 2))], ""⟩,
              ⟨"rec_1", "B", "2025-01-02", 80, [("PM2.5", .finite (15 / 2))], ""⟩], 2) :=
  C9_bulk_import [] ["PM2.5"] (fun n => "rec_" ++ toString n)
    [[("region", "A"), ("date", "2025-01-01"), ("AQI", "100"), ("PM2.5", "12.5")],
     [("region", "B"), ("date", "2025-01-02"), ("AQI", "80"), ("PM2.5", "7.5")]]
    "2025-01-10" [] (fun n => "rec_" ++ toString n) [⟨none, [("region", "X")]⟩]
    (by decide)

/-- Counterexample to claim C9 as stated: a JSON row carrying
record_id "keep_me" is appended with that id kept, not with a freshly
generated identifier (the generator would have produced "rec_0"). -/
theorem C9_cex :
    upload_json [] (fun n => "rec_" ++ toString n) [⟨some "keep_me", []⟩]
      = [("keep_me", [])]
    ∧ "rec_" ++ toString 0 = "rec_0"
    ∧ "keep_me" ≠ "rec_0" :=
  ⟨by with_unfolding_all rfl, by decide, by decide⟩

theorem latest_update_keys (r : AirRec) :
    ∀ acc : List (String × AirRec),
      (latest_update acc r).map Prod.fst
        = if r.region ∈ acc.map Prod.fst then acc.map Prod.fst
          else acc.map Prod.fst ++ [r.region] := by
  intro acc
  induction acc with
  | nil => simp [latest_update]
  | cons kv rest ih =>
    obtain ⟨k, v⟩ := kv
    by_cases hk : k = r.region
    · subst hk
      simp only [latest_update, if_true]
      by_cases hd : v.date < r.date
      · rw [if_pos hd]; simp
      · rw [if_neg hd]; simp
    · simp only [latest_update]
      rw [if_neg hk]
      simp only [List.map_cons]
      rw [ih]
      by_cases hm : r.region ∈ rest.map Prod.fst
      · rw [if_pos hm, if_pos (List.mem_cons_of_mem _ hm)]
      · have hc : r.region ∉ k :: rest.map Prod.fst := by
          simp only [List.mem_cons]
          rintro (e | e)
          · exact hk e.symm
          · exact hm e
        rw [if_neg hm, if_neg hc]
        rfl

theorem latest_update_entries (r : AirRec) (seen : List AirRec) :
    ∀ acc : List (String × AirRec),
      (acc.map Prod.fst).Nodup →
      (∀ kv ∈ acc, kv.2.region = kv.1 ∧ kv.2 ∈ seen ∧
        ∀ x ∈ seen, x.region = kv.1 → x.date ≤ kv.2.date) →
      (r.region ∉ acc.map Prod.fst → ∀ x ∈ seen, x.region ≠ r.region) →
      ∀ kv ∈ latest_update acc r, kv.2.region = kv.1 ∧ kv.2 ∈ seen ++ [r] ∧
        ∀ x ∈ seen ++ [r], x.region = kv.1 → x.date ≤ kv.2.date := by
  intro acc
  induction acc with
  | nil =>
    intro _ _ hnew kv hkv
    simp only [latest_update] at hkv
    rw [List.mem_singleton] at hkv
    subst hkv
    refine ⟨rfl, by simp, ?_⟩
    intro x hx hreg
    rcases List.mem_append.mp hx with hx | hx
    · exact absurd hreg (hnew (by simp) x hx)
    · rw [List.mem_singleton] at hx
      subst hx
      exact le_refl _
  | cons kv0 rest ih =>
    obtain ⟨k, v⟩ := kv0
    intro hnd hsound hnew kv hkv
    have hv := hsound (k, v) (List.mem_cons_self _ _)
    have hndrest : (rest.map Prod.fst).Nodup := (List.nodup_cons.mp hnd).2
    have hknotin : k ∉ rest.map Prod.fst := (List.nodup_cons.mp hnd).1
    by_cases hk : k = r.region
    · subst hk
      simp only [latest_update, if_true] at hkv
      have hrestCase : kv ∈ rest → kv.2.region = kv.1 ∧ kv.2 ∈ seen ++ [r] ∧
          ∀ x ∈ seen ++ [r], x.region = kv.1 → x.date ≤ kv.2.date := by
        intro hkv2
        have hrest := hsound kv (List.mem_cons_of_mem _ hkv2)
        have hkvne : kv.1 ≠ r.region := by
          intro e
          exact hknotin (e ▸ List.mem_map.mpr ⟨kv, hkv2, rfl⟩)
        refine ⟨hrest.1, List.mem_append_left _ hrest.2.1, ?_⟩
        intro x hx hreg
        rcases List.mem_append.mp hx with hx | hx
        · exact hrest.2.2 x hx hreg
        · rw [List.mem_singleton] at hx
          subst hx
          exact absurd hreg.symm hkvne
      by_cases hd : v.date < r.date
      · rw [if_pos hd] at hkv
        rcases List.mem_cons.mp hkv with hkv | hkv
        · subst hkv
          refine ⟨rfl, by simp, ?_⟩
          intro x hx hreg
          rcases List.mem_append.mp hx with hx | hx
          · exact le_trans (hv.2.2 x hx hreg) (le_of_lt hd)
          · rw [List.mem_singleton] at hx
            subst hx
            exact le_refl _
        · exact hrestCase hkv
      · rw [if_neg hd] at hkv
        rcases List.mem_cons.mp hkv with hkv | hkv
        · subst hkv
          refine ⟨hv.1, List.mem_append_left _ hv.2.1, ?_⟩
          intro x hx hreg
          rcases List.mem_append.mp hx with hx | hx
          · exact hv.2.2 x hx hreg
          · rw [List.mem_singleton] at hx
            subst hx
            exact not_lt.mp hd
        · exact hrestCase hkv
    · simp only [latest_update] at hkv
      rw [if_neg hk] at hkv
      rcases List.mem_cons.mp hkv with hkv | hkv
      · subst hkv
        refine ⟨hv.1, List.mem_append_left _ hv.2.1, ?_⟩
        intro x hx hreg
        rcases List.mem_append.mp hx with hx | hx
        · exact hv.2.2 x hx hreg
        · rw [List.mem_singleton] at hx
          rw [hx] at hreg
          exact absurd (hreg.symm : k = r.region) hk
      · refine ih hndrest (fun kv2 h2 => hsound kv2 (List.mem_cons_of_mem _ h2)) ?_ kv hkv
        intro hnm x hx
        apply hnew ?_ x hx
        simp only [List.map_cons, List.mem_cons]
        rintro (e | e)
        · exact hk e.symm
        · exact hnm e

theorem latest_fold (air : List AirRec) :
    ∀ (acc : List (String × AirRec)) (seen : List AirRec),
      (acc.map Prod.fst).Nodup →
      (∀ x ∈ seen, x.region ∈ acc.map Prod.fst) →
      (∀ kv ∈ acc, kv.2.region = kv.1 ∧ kv.2 ∈ seen ∧
        ∀ x ∈ seen, x.region = kv.1 → x.date ≤ kv.2.date) →
      ((air.foldl latest_update acc).map Prod.fst).Nodup ∧
      (∀ x ∈ seen ++ air, x.region ∈ (air.foldl latest_update acc).map Prod.fst) ∧
      (∀ kv ∈ air.foldl latest_update acc, kv.2.region = kv.1 ∧ kv.2 ∈ seen ++ air ∧
        ∀ x ∈ seen ++ air, x.region = kv.1 → x.date ≤ kv.2.date) := by
  induction air with
  | nil =>
    intro acc seen h1 h2 h3
    simp only [List.foldl_nil, List.append_nil]
    exact ⟨h1, h2, h3⟩
  | cons r rest ih =>
    intro acc seen h1 h2 h3
    have hnew : r.region ∉ acc.map Prod.fst → ∀ x ∈ seen, x.region ≠ r.region := by
      intro hnm x hx he
      exact hnm (he ▸ h2 x hx)
    have k1 : ((latest_update acc r).map Prod.fst).Nodup := by
      rw [latest_update_keys]
      by_cases hm : r.region ∈ acc.map Prod.fst
      · rw [if_pos hm]; exact h1
      · rw [if_neg hm]
        refine List.Nodup.append h1 (List.nodup_singleton _) ?_
        intro a ha hb
        rw [List.mem_singleton] at hb
        exact hm (hb ▸ ha)
    have k2 : ∀ x ∈ seen ++ [r], x.region ∈ (latest_update acc r).map Prod.fst := by
      intro x hx
      rw [latest_update_keys]
      rcases List.mem_append.mp hx with hx | hx
      · by_cases hm : r.region ∈ acc.map Prod.fst
        · rw [if_pos hm]; exact h2 x hx
        · rw [if_neg hm]; exact List.mem_append_left _ (h2 x hx)
      · rw [List.mem_singleton] at hx
        subst hx
        by_cases hm : x.region ∈ acc.map Prod.fst
        · rw [if_pos hm]; exact hm
        · rw [if_neg hm]; simp
    have k3 := latest_update_entries r seen acc h1 h3 hnew
    have hmain := ih (latest_update acc r) (seen ++ [r]) k1 k2 k3
    rw [List.append_assoc] at hmain
    simp only [List.singleton_append] at hmain
    rw [List.foldl_cons]
    exact hmain

/-- Claim C10: the citizen search option "All Regions (latest AQI per
region)" returns exactly one record per distinct region, with regions
distinguished by the exact (case-sensitive) string, and the record kept
for each region has a date string lexicographically greatest among that
region's records; by contrast, the by-region search (option 2) matches
case-insensitively. -/
theorem C10_all_regions_latest (air : List AirRec) :
    ((search_all_regions_latest air).map (fun r => r.region)).Nodup ∧
    (∀ g, g ∈ (search_all_regions_latest air).map (fun r => r.region)
        ↔ g ∈ air.map (fun r => r.region)) ∧
    (∀ x ∈ search_all_regions_latest air, x ∈ air ∧
      ∀ y ∈ air, y.region = x.region → y.date ≤ x.date) ∧
    (∀ q, search_by_region air q = air.filter (fun r => pyLower r.region = pyLower q)) := by
  obtain ⟨h1, h2, h3⟩ := latest_fold air [] [] (by simp) (by simp) (by simp)
  simp only [List.nil_append] at h2 h3
  have hmapeq : (search_all_regions_latest air).map (fun r => r.region)
      = (air.foldl latest_update []).map Prod.fst := by
    rw [search_all_regions_latest, List.map_map]
    exact List.map_congr_left (fun kv hkv => (h3 kv hkv).1)
  refine ⟨hmapeq ▸ h1, ?_, ?_, fun q => rfl⟩
  · intro g
    rw [hmapeq]
    constructor
    · intro hg
      obtain ⟨kv, hkv, he⟩ := List.mem_map.mp hg
      obtain ⟨hr, hmem, _⟩ := h3 kv hkv
      exact List.mem_map.mpr ⟨kv.2, hmem, hr.trans he⟩
    · intro hg
      obtain ⟨x, hx, he⟩ := List.mem_map.mp hg
      exact he ▸ h2 x hx
  · intro x hx
    obtain ⟨kv, hkv, he⟩ := List.mem_map.mp hx
    obtain ⟨hr, hmem, hmax⟩ := h3 kv hkv
    subst he
    exact ⟨hmem, fun y hy hreg => hmax y hy (hreg.trans hr)⟩

theorem dict_append_keys (k : String) (v : Int) :
    ∀ m : List (String × List Int),
      (dict_append m k v).map Prod.fst
        = if k ∈ m.map Prod.fst then m.map Prod.fst else m.map Prod.fst ++ [k] := by
  intro m
  induction m with
  | nil => simp [dict_append]
  | cons kv rest ih =>
    obtain ⟨k2, vs⟩ := kv
    by_cases hk : k2 = k
    · subst hk
      simp only [dict_append, if_true]
      simp
    · simp only [dict_append]
      rw [if_neg hk]
      simp only [List.map_cons]
      rw [ih]
      by_cases hm : k ∈ rest.map Prod.fst
      · rw [if_pos hm, if_pos (List.mem_cons_of_mem _ hm)]
      · have hc : k ∉ k2 :: rest.map Prod.fst := by
          simp only [List.mem_cons]
          rintro (e | e)
          · exact hk e.symm
          · exact hm e
        rw [if_neg hm, if_neg hc]
        rfl

theorem dict_append_entries (key : AirRec → String) (seen : List AirRec) (r : AirRec) :
    ∀ m : List (String × List Int),
      (m.map Prod.fst).Nodup →
      (∀ kv ∈ m, kv.2 = ((seen.filter (fun x => key x = kv.1)).map (fun x => x.AQI))) →
      (key r ∉ m.map Prod.fst → ∀ x ∈ seen, key x ≠ key r) →
      ∀ kv ∈ dict_append m (key r) r.AQI,
        kv.2 = (((seen ++ [r]).filter (fun x => key x = kv.1)).map (fun x => x.AQI)) := by
  intro m
  induction m with
  | nil =>
    intro _ _ hnew kv hkv
    simp only [dict_append] at hkv
    rw [List.mem_singleton] at hkv
    subst hkv
    have hseen : seen.filter (fun x => decide (key x = key r)) = [] := by
      apply List.filter_eq_nil_iff.mpr
      intro x hx
      simp only [decide_eq_true_eq]
      exact hnew (by simp) x hx
    rw [List.filter_append, hseen]
    simp
  | cons kv0 rest ih =>
    obtain ⟨k2, vs⟩ := kv0
    intro hnd hsound hnew kv hkv
    have hv := hsound (k2, vs) (List.mem_cons_self _ _)
    have hndrest : (rest.map Prod.fst).Nodup := (List.nodup_cons.mp hnd).2
    have hknotin : k2 ∉ rest.map Prod.fst := (List.nodup_cons.mp hnd).1
    have hfilterout : ∀ (g : String), key r ≠ g →
        ((seen ++ [r]).filter (fun x => key x = g)).map (fun x => x.AQI)
          = (seen.filter (fun x => key x = g)).map (fun x => x.AQI) := by
      intro g hg
      rw [List.filter_append]
      have : [r].filter (fun x => decide (key x = g)) = [] := by
        simp [List.filter_cons, hg]
      rw [this, List.append_nil]
    by_cases hk : k2 = key r
    · subst hk
      simp only [dict_append, if_true] at hkv
      dsimp only at hv
      rcases List.mem_cons.mp hkv with hkv | hkv
      · subst hkv
        dsimp only
        rw [List.filter_append]
        have hr1 : [r].filter (fun x => decide (key x = key r)) = [r] := by
          simp [List.filter_cons]
        rw [hr1, List.map_append]
        simp only [List.map_cons, List.map_nil]
        rw [← hv]
      · have hrest := hsound kv (List.mem_cons_of_mem _ hkv)
        have hkvne : key r ≠ kv.1 := by
          intro e
          exact hknotin (e ▸ List.mem_map.mpr ⟨kv, hkv, rfl⟩)
        rw [hfilterout kv.1 hkvne]
        exact hrest
    · simp only [dict_append] at hkv
      rw [if_neg hk] at hkv
      rcases List.mem_cons.mp hkv with hkv | hkv
      · subst hkv
        dsimp only at hv ⊢
        rw [hfilterout k2 (fun e => hk e.symm)]
        exact hv
      · refine ih hndrest (fun kv2 h2 => hsound kv2 (List.mem_cons_of_mem _ h2)) ?_ kv hkv
        intro hnm x hx
        apply hnew ?_ x hx
        simp only [List.map_cons, List.mem_cons]
        rintro (e | e)
        · exact hk e.symm
        · exact hnm e

theorem group_fold (key : AirRec → String) (air : List AirRec) :
    ∀ (m : List (String × List Int)) (seen : List AirRec),
      (m.map Prod.fst).Nodup →
      (∀ x ∈ seen, key x ∈ m.map Prod.fst) →
      List.Sublist (m.map Prod.fst) (seen.map key) →
      (∀ kv ∈ m, kv.2 = ((seen.filter (fun x => key x = kv.1)).map (fun x => x.AQI))) →
      (((air.foldl (fun m2 x => dict_append m2 (key x) x.AQI) m).map Prod.fst).Nodup ∧
       (∀ x ∈ seen ++ air, key x ∈ (air.foldl (fun m2 x => dict_append m2 (key x) x.AQI) m).map Prod.fst) ∧
       List.Sublist ((air.foldl (fun m2 x => dict_append m2 (key x) x.AQI) m).map Prod.fst) ((seen ++ air).map key) ∧
       (∀ kv ∈ air.foldl (fun m2 x => dict_append m2 (key x) x.AQI) m,
         kv.2 = (((seen ++ air).filter (fun x => key x = kv.1)).map (fun x => x.AQI)))) := by
  induction air with
  | nil =>
    intro m seen h1 h2 h3 h4
    simp only [List.foldl_nil, List.append_nil]
    exact ⟨h1, h2, h3, h4⟩
  | cons r rest ih =>
    intro m seen h1 h2 h3 h4
    have hnew : key r ∉ m.map Prod.fst → ∀ x ∈ seen, key x ≠ key r := by
      intro hnm x hx he
      exact hnm (he ▸ h2 x hx)
    have k1 : ((dict_append m (key r) r.AQI).map Prod.fst).Nodup := by
      rw [dict_append_keys]
      by_cases hm : key r ∈ m.map Prod.fst
      · rw [if_pos hm]; exact h1
      · rw [if_neg hm]
        refine List.Nodup.append h1 (List.nodup_singleton _) ?_
        intro a ha hb
        rw [List.mem_singleton] at hb
        exact hm (hb ▸ ha)
    have k2 : ∀ x ∈ seen ++ [r], key x ∈ (dict_append m (key r) r.AQI).map Prod.fst := by
      intro x hx
      rw [dict_append_keys]
      rcases List.mem_append.mp hx with hx | hx
      · by_cases hm : key r ∈ m.map Prod.fst
        · rw [if_pos hm]; exact h2 x hx
        · rw [if_neg hm]; exact List.mem_append_left _ (h2 x hx)
      · rw [List.mem_singleton] at hx
        subst hx
        by_cases hm : key x ∈ m.map Prod.fst
        · rw [if_pos hm]; exact hm
        · rw [if_neg hm]; simp
    have k3 : List.Sublist ((dict_append m (key r) r.AQI).map Prod.fst) ((seen ++ [r]).map key) := by
      rw [dict_append_keys, List.map_append]
      by_cases hm : key r ∈ m.map Prod.fst
      · rw [if_pos hm]
        exact h3.trans (List.sublist_append_left _ _)
      · rw [if_neg hm]
        exact List.Sublist.append h3 (by simp)
    have k4 := dict_append_entries key seen r m h1 h4 hnew
    have hmain := ih (dict_append m (key r) r.AQI) (seen ++ [r]) k1 k2 k3 k4
    rw [List.append_assoc] at hmain
    simp only [List.singleton_append] at hmain
    rw [List.foldl_cons]
    exact hmain

theorem group_aqi_by_spec (key : AirRec → String) (air : List AirRec) :
    ((group_aqi_by key air).map Prod.fst).Nodup ∧
    (∀ x ∈ air, key x ∈ (group_aqi_by key air).map Prod.fst) ∧
    List.Sublist ((group_aqi_by key air).map Prod.fst) (air.map key) ∧
    (∀ kv ∈ group_aqi_by key air,
      kv.2 = ((air.filter (fun x => key x = kv.1)).map (fun x => x.AQI))) := by
  have h := group_fold key air [] [] (by simp) (by simp) (by simp) (by simp)
  simpa [group_aqi_by] using h

theorem filter_orderedInsert_pos {α : Type} (r : α → α → Prop) [DecidableRel r]
    (p : α → Bool) (a : α) (hpa : p a = true) (hcomp : ∀ b, p b = true → r a b) :
    ∀ l : List α, (List.orderedInsert r a l).filter p = a :: l.filter p := by
  intro l
  induction l with
  | nil => simp [List.orderedInsert, hpa]
  | cons b t ih =>
    by_cases hr : r a b
    · rw [List.orderedInsert, if_pos hr]
      simp [List.filter_cons, hpa]
    · have hpb : p b = false := by
        cases hb : p b
        · rfl
        · exact absurd (hcomp b hb) hr
      rw [List.orderedInsert, if_neg hr]
      simp [List.filter_cons, hpb, ih]

theorem filter_orderedInsert_neg {α : Type} (r : α → α → Prop) [DecidableRel r]
    (p : α → Bool) (a : α) (hpa : p a = false) :
    ∀ l : List α, (List.orderedInsert r a l).filter p = l.filter p := by
  intro l
  induction l with
  | nil => simp [List.orderedInsert, hpa]
  | cons b t ih =>
    by_cases hr : r a b
    · rw [List.orderedInsert, if_pos hr]
      simp [List.filter_cons, hpa]
    · rw [List.orderedInsert, if_neg hr]
      simp [List.filter_cons, ih]

theorem filter_insertionSort_eqkey {α : Type} (key : α → ℚ) (m : ℚ) (r : α → α → Prop)
    [DecidableRel r] (hr : ∀ a b, key a = key b → r a b) :
    ∀ l : List α, (List.insertionSort r l).filter (fun x => key x = m)
      = l.filter (fun x => key x = m) := by
  intro l
  induction l with
  | nil => rfl
  | cons a t ih =>
    rw [List.insertionSort]
    by_cases hpa : key a = m
    · have hcomp : ∀ b, decide (key b = m) = true → r a b := by
        intro b hb
        simp only [decide_eq_true_eq] at hb
        exact hr a b (hpa.trans hb.symm)
      rw [filter_orderedInsert_pos r _ a (by simp [hpa]) hcomp, ih]
      simp [List.filter_cons, hpa]
    · rw [filter_orderedInsert_neg r _ a (by simp [hpa]), ih]
      simp [List.filter_cons, hpa]

/-- Claim C1, amended: the top-polluted-regions report has one row per
distinct region (keys without duplicates, drawn from and covering the
record regions in first-seen order), each row holding the average AQI
of that region rounded to one decimal and the group size; the rows are
sorted descending by the ROUNDED average, with rows of equal rounded
average kept in the first-seen order of the pre-sort row list; the
R1/R2 example of the specification evaluates as claimed. -/
theorem C1_top_polluted (air : List AirRec) :
    ((top_polluted_rows air).map Prod.fst).Nodup ∧
    (∀ g, g ∈ (top_polluted_rows air).map Prod.fst ↔ g ∈ air.map (fun x => x.region)) ∧
    (∀ t ∈ top_polluted_rows air,
      t.2.1 = round1 (ratMean ((air.filter (fun x => x.region = t.1)).map (fun x => x.AQI))) ∧
      t.2.2 = (air.filter (fun x => x.region = t.1)).length) ∧
    (top_polluted_rows air).Pairwise by_avg_desc ∧
    (∀ mq : ℚ, (top_polluted_rows air).filter (fun t => t.2.1 = mq)
      = ((group_aqi_by (fun x => x.region) air).map
          (fun kv => (kv.1, round1 (ratMean kv.2), kv.2.length))).filter (fun t => t.2.1 = mq)) ∧
    top_polluted_rows
        [⟨"r1", "R1", "2025-01-01", 100, [], ""⟩, ⟨"r2", "R1", "2025-01-02", 200, [], ""⟩,
         ⟨"r3", "R2", "2025-01-01", 50, [], ""⟩]
      = [("R1", 150, 2), ("R2", 50, 1)] := by
  obtain ⟨hnd, hcomp, hsub, hsound⟩ := group_aqi_by_spec (fun x => x.region) air
  have hperm : List.Perm (top_polluted_rows air)
      ((group_aqi_by (fun x => x.region) air).map
        (fun kv => (kv.1, round1 (ratMean kv.2), kv.2.length))) :=
    List.perm_insertionSort _ _
  have hkeys : ((group_aqi_by (fun x => x.region) air).map
      (fun kv => (kv.1, round1 (ratMean kv.2), kv.2.length))).map Prod.fst
      = (group_aqi_by (fun x => x.region) air).map Prod.fst := by
    rw [List.map_map]
    exact List.map_congr_left (fun kv _ => rfl)
  have hpermkeys := hperm.map Prod.fst
  rw [hkeys] at hpermkeys
  refine ⟨?_, ?_, ?_, ?_, ?_, ?_⟩
  · exact hpermkeys.nodup_iff.mpr hnd
  · intro g
    rw [hpermkeys.mem_iff]
    constructor
    · intro hg
      exact hsub.subset hg
    · intro hg
      obtain ⟨x, hx, he⟩ := List.mem_map.mp hg
      exact he ▸ hcomp x hx
  · intro t ht
    obtain ⟨kv, hkv, he⟩ := List.mem_map.mp (hperm.mem_iff.mp ht)
    have h2 := hsound kv hkv
    subst he
    dsimp only
    rw [h2]
    exact ⟨rfl, by rw [List.length_map]⟩
  · rw [top_polluted_rows]
    exact List.sorted_insertionSort by_avg_desc _
  · intro mq
    rw [top_polluted_rows]
    exact filter_insertionSort_eqkey (fun t => t.2.1) mq by_avg_desc
      (fun a b hab => le_of_eq hab.symm) _
  · with_unfolding_all rfl

set_option maxRecDepth 10000 in
/-- Counterexample to claim C1 as stated: region B (ten records, three
of them AQI 1, true mean 3/10) and region A (three records, one AQI 1,
true mean 1/3) both display the rounded average 3/10, so the stable
sort keeps first-seen B before A even though the true mean of A (1/3)
is strictly greater than the true mean of B (3/10); the rows hold the
rounded value 3/10, not the arithmetic mean 1/3, and the order is not
descending in the true means. -/
theorem C1_cex :
    top_polluted_rows
        [⟨"b1", "B", "2025-01-01", 1, [], ""⟩, ⟨"b2", "B", "2025-01-01", 1, [], ""⟩,
         ⟨"b3", "B", "2025-01-01", 1, [], ""⟩, ⟨"b4", "B", "2025-01-01", 0, [], ""⟩,
         ⟨"b5", "B", "2025-01-01", 0, [], ""⟩, ⟨"b6", "B", "2025-01-01", 0, [], ""⟩,
         ⟨"b7", "B", "2025-01-01", 0, [], ""⟩, ⟨"b8", "B", "2025-01-01", 0, [], ""⟩,
         ⟨"b9", "B", "2025-01-01", 0, [], ""⟩, ⟨"b10", "B", "2025-01-01", 0, [], ""⟩,
         ⟨"a1", "A", "2025-01-01", 0, [], ""⟩, ⟨"a2", "A", "2025-01-01", 0, [], ""⟩,
         ⟨"a3", "A", "2025-01-01", 1, [], ""⟩]
      = [("B", 3 / 10, 10), ("A", 3 / 10, 3)]
    ∧ ratMean [1, 1, 1, 0, 0, 0, 0, 0, 0, 0] = 3 / 10
    ∧ ratMean [0, 0, 1] = 1 / 3
    ∧ (3 / 10 : ℚ) < 1 / 3 := by
  refine ⟨by with_unfolding_all rfl, by with_unfolding_all rfl, by with_unfolding_all rfl, ?_⟩
  norm_num

/-- Claim C2: the monthly trend selects exactly the records whose
region matches the query case-insensitively, groups them by the month
key of the date (raw date string if unparsable), shows the arithmetic
mean AQI per group, outputs the groups with pairwise strictly ascending
keys, and the two-record example of the specification gives the single
bucket 2025-01 with average 100. -/
theorem C2_monthly_trend (air : List AirRec) (q : String) :
    ((monthly_trend air q).map Prod.fst).Nodup ∧
    (∀ k, k ∈ (monthly_trend air q).map Prod.fst
        ↔ k ∈ (air.filter (fun x => pyLower x.region = pyLower q)).map
            (fun x => month_key x.date)) ∧
    (∀ p ∈ monthly_trend air q,
      p.2 = ratMean (((air.filter (fun x => pyLower x.region = pyLower q)).filter
        (fun x => month_key x.date = p.1)).map (fun x => x.AQI))) ∧
    (monthly_trend air q).Pairwise (fun a b => a.1 < b.1) ∧
    monthly_trend
        [⟨"r1", "A", "2025-01-01", 80, [], ""⟩, ⟨"r2", "A", "2025-01-05", 120, [], ""⟩] "A"
      = [("2025-01", 100)] := by
  obtain ⟨hnd, hcomp, hsub, hsound⟩ :=
    group_aqi_by_spec (fun x => month_key x.date)
      (air.filter (fun x => pyLower x.region = pyLower q))
  have hdefn : monthly_trend air q
      = List.insertionSort month_asc
          ((group_aqi_by (fun x => month_key x.date)
            (air.filter (fun x => pyLower x.region = pyLower q))).map
              (fun kv => (kv.1, ratMean kv.2))) := rfl
  have hperm : List.Perm (monthly_trend air q)
      ((group_aqi_by (fun x => month_key x.date)
        (air.filter (fun x => pyLower x.region = pyLower q))).map
          (fun kv => (kv.1, ratMean kv.2))) := by
    rw [hdefn]
    exact List.perm_insertionSort _ _
  have hkeys : ((group_aqi_by (fun x => month_key x.date)
      (air.filter (fun x => pyLower x.region = pyLower q))).map
        (fun kv => (kv.1, ratMean kv.2))).map Prod.fst
      = (group_aqi_by (fun x => month_key x.date)
          (air.filter (fun x => pyLower x.region = pyLower q))).map Prod.fst := by
    rw [List.map_map]
    exact List.map_congr_left (fun kv _ => rfl)
  have hpermkeys := hperm.map Prod.fst
  rw [hkeys] at hpermkeys
  have hndT : ((monthly_trend air q).map Prod.fst).Nodup := hpermkeys.nodup_iff.mpr hnd
  refine ⟨hndT, ?_, ?_, ?_, ?_⟩
  · intro k
    rw [hpermkeys.mem_iff]
    constructor
    · intro hg
      exact hsub.subset hg
    · intro hg
      obtain ⟨x, hx, he⟩ := List.mem_map.mp hg
      exact he ▸ hcomp x hx
  · intro p hp
    obtain ⟨kv, hkv, he⟩ := List.mem_map.mp (hperm.mem_iff.mp hp)
    have h2 := hsound kv hkv
    subst he
    dsimp only
    rw [h2]
  · have hsorted : (monthly_trend air q).Pairwise month_asc := by
      rw [hdefn]
      exact List.sorted_insertionSort month_asc _
    have hne : (monthly_trend air q).Pairwise (fun a b => a.1 ≠ b.1) :=
      (List.pairwise_map.mp hndT)
    refine (hsorted.and hne).imp ?_
    rintro a b ⟨hm, hne2⟩
    rcases hm with hlt | ⟨he, _⟩
    · exact hlt
    · exact absurd he hne2
  · with_unfolding_all rfl

/-- Counterexample to claim C3 as stated: one region with AQI values
0, 0, 1 in a single month makes the monthly-trend report display the
unrounded mean 1/3, which differs from the mean rounded to one decimal
place (3/10): the monthly report does not round at all. -/
theorem C3_cex :
    monthly_trend
        [⟨"r1", "A", "2025-01-01", 0, [], ""⟩, ⟨"r2", "A", "2025-01-02", 0, [], ""⟩,
         ⟨"r3", "A", "2025-01-03", 1, [], ""⟩] "A"
      = [("2025-01", 1 / 3)]
    ∧ round1 (1 / 3) = 3 / 10
    ∧ (1 / 3 : ℚ) ≠ 3 / 10 := by
  refine ⟨by with_unfolding_all rfl, by with_unfolding_all rfl, ?_⟩
  norm_num

/-- Claim C3, amended: averages are computed from the stored, unrounded
AQI values; the top-polluted-regions report rounds the displayed
average to one decimal place, while the monthly-trend report displays
the exact, unrounded mean. Report generation never writes a collection,
so no stored value is changed. -/
theorem C3_display_rounding (air : List AirRec) (q : String) :
    (∀ t ∈ top_polluted_rows air,
      t.2.1 = round1 (ratMean ((air.filter (fun x => x.region = t.1)).map (fun x => x.AQI)))) ∧
    (∀ p ∈ monthly_trend air q,
      p.2 = ratMean (((air.filter (fun x => pyLower x.region = pyLower q)).filter
        (fun x => month_key x.date = p.1)).map (fun x => x.AQI))) := by
  constructor
  · intro t ht
    obtain ⟨-, -, -, hsound⟩ := group_aqi_by_spec (fun x => x.region) air
    have hperm : List.Perm (top_polluted_rows air)
        ((group_aqi_by (fun x => x.region) air).map
          (fun kv => (kv.1, round1 (ratMean kv.2), kv.2.length))) :=
      List.perm_insertionSort _ _
    obtain ⟨kv, hkv, he⟩ := List.mem_map.mp (hperm.mem_iff.mp ht)
    have h2 := hsound kv hkv
    subst he
    dsimp only
    rw [h2]
  · intro p hp
    obtain ⟨-, -, -, hsound⟩ :=
      group_aqi_by_spec (fun x => month_key x.date)
        (air.filter (fun x => pyLower x.region = pyLower q))
    have hperm : List.Perm (monthly_trend air q)
        ((group_aqi_by (fun x => month_key x.date)
          (air.filter (fun x => pyLower x.region = pyLower q))).map
            (fun kv => (kv.1, ratMean kv.2))) :=
      List.perm_insertionSort _ _
    obtain ⟨kv, hkv, he⟩ := List.mem_map.mp (hperm.mem_iff.mp hp)
    have h2 := hsound kv hkv
    subst he
    dsimp only
    rw [h2]
